import Mathlib

/-!
Verification of the EduConnect backend's JWT authentication layer, serie
service and lesson tracking, as a shallow embedding of the Python source
(`app/middleware/auth.py`, `app/dependencies/auth.py`,
`app/services/serie_service.py`, `app/blueprints/tracking.py`).
Times are integer seconds; MongoDB collections are association lists; the
network is an explicit list of fetch outcomes threaded through the functions.
-/

namespace EduConnect

/-- The JWT payload claims the service reads. -/
structure Claims where
  sub : Option String
  token_use : Option String
  aud : Option String
  iss : Option String
  exp : Option Int
  client_id : Option String
  deriving DecidableEq

/-- A JWT as the verification code observes it: whether its header and payload
parse, the header fields, the claims, and an abstract signature (the material
of the RSA key pair that produced it). -/
structure Token where
  headerOk : Bool
  kid : Option String
  alg : String
  payloadOk : Bool
  claims : Claims
  signedBy : Option Nat
  deriving DecidableEq

/-- One JWKS entry: its kid, abstract key material, and whether
`RSAAlgorithm.from_jwk` succeeds on it. -/
structure Jwk where
  kid : String
  material : Nat
  valid : Bool
  deriving DecidableEq

/-- The module-level `_JWKS_CACHE` dictionary. -/
structure JwksCache where
  keys : Option (List Jwk)
  fetched_at : Option Int
  deriving DecidableEq

/-- Outcome of one `_fetch_jwks` call: `none` when the URL is missing or the
HTTP request fails, otherwise the fetched key list. -/
abbrev FetchResult := Option (List Jwk)

/-- The configuration both implementations read (`_get_config`). -/
structure Config where
  cacheTtl : Int
  leeway : Int
  issuer : Option String
  appClientId : Option String
  jwksUrlConfigured : Bool
  allowInsecure : Bool
  deriving DecidableEq

/-- JWKS_CACHE_TTL default: `_get_config('JWKS_CACHE_TTL', '86400')`. -/
def defaultJwksCacheTtl : Int := 86400

/-- PyJWT exceptions raised along the verification path.  Every constructor
other than `expiredSignature`, `invalidAudience` and `invalidIssuer` models an
`InvalidTokenError` (or subclass) that the callers handle generically. -/
inductive JwtError where
  | invalidHeader
  | missingKid
  | keyNotFound
  | invalidAlgorithm
  | invalidSignature
  | decodeError
  | expiredSignature
  | missingRequiredClaim (c : String)
  | invalidIssuer
  | invalidAudience
  | invalidTokenUse (u : String)
  deriving DecidableEq

/-- PyJWT `_validate_exp` with leeway: the token is expired once
`exp <= now - leeway`. -/
def validateExp (c : Claims) (leeway now : Int) : Except JwtError Unit :=
  match c.exp with
  | none => .ok ()
  | some e => if e ≤ now - leeway then .error .expiredSignature else .ok ()

/-- PyJWT `_validate_iss`: skipped when no issuer is configured; a missing
`iss` claim raises MissingRequiredClaimError, a mismatch InvalidIssuerError. -/
def validateIss (c : Claims) (issuer : Option String) : Except JwtError Unit :=
  match issuer with
  | none => .ok ()
  | some i =>
    match c.iss with
    | none => .error (.missingRequiredClaim "iss")
    | some ci => if ci = i then .ok () else .error .invalidIssuer

/-- PyJWT `_validate_aud`: only runs when `verify_aud`; an absent or empty
`aud` claim is "missing"; with an expected audience a mismatch raises
InvalidAudienceError. -/
def validateAud (c : Claims) (audience : Option String) (verifyAud : Bool) :
    Except JwtError Unit :=
  if verifyAud then
    match audience with
    | none =>
      match c.aud with
      | none => .ok ()
      | some a => if a = "" then .ok () else .error .invalidAudience
    | some expected =>
      match c.aud with
      | none => .error (.missingRequiredClaim "aud")
      | some a =>
        if a = "" then .error (.missingRequiredClaim "aud")
        else if a = expected then .ok () else .error .invalidAudience
  else .ok ()

/-- PyJWT `jwt.decode(token, key, algorithms=..., leeway=..., issuer=...,
audience=..., options={verify_aud})`: verify the signature with the given key
under the allowed algorithms, parse the payload, then validate exp, iss and
aud.  Header or payload parse failures are DecodeErrors. -/
def jwtDecode (tok : Token) (key : Jwk) (algs : List String) (leeway : Int)
    (issuer : Option String) (audience : Option String) (verifyAud : Bool)
    (now : Int) : Except JwtError Claims :=
  if ¬ tok.headerOk then .error .decodeError
  else if ¬ algs.contains tok.alg then .error .invalidAlgorithm
  else if tok.signedBy ≠ some key.material then .error .invalidSignature
  else if ¬ tok.payloadOk then .error .decodeError
  else
    match validateExp tok.claims leeway now with
    | .error e => .error e
    | .ok _ =>
      match validateIss tok.claims issuer with
      | .error e => .error e
      | .ok _ =>
        match validateAud tok.claims audience verifyAud with
        | .error e => .error e
        | .ok _ => .ok tok.claims

/-- The fetch-and-update tail of `_get_jwks_keys`: a fetch consumes the head
of `world`; a successful fetch overwrites the cached keys and timestamp, a
failed one leaves the cache unchanged.  An exhausted world behaves as a
failed fetch. -/
def fetchStep (now : Int) (cache : JwksCache) (world : List FetchResult) :
    Option (List Jwk) × JwksCache × List FetchResult :=
  match world with
  | [] => (none, cache, [])
  | some ks :: rest => (some ks, ⟨some ks, some now⟩, rest)
  | none :: rest => (none, cache, rest)

/-- `_get_jwks_keys`: return the cached keys while they are younger than the
TTL, otherwise fetch. -/
def getJwksKeysW (ttl now : Int) (cache : JwksCache) (world : List FetchResult) :
    Option (List Jwk) × JwksCache × List FetchResult :=
  match cache.keys, cache.fetched_at with
  | some ks, some t =>
    if now - t < ttl then (some ks, cache, world)
    else fetchStep now cache world
  | _, _ => fetchStep now cache world

/-- The scan inside `_get_public_key`: first JWK whose kid matches; a
matching JWK that `from_jwk` cannot convert yields `none`. -/
def findKey (ks : List Jwk) (kid : String) : Option Jwk :=
  match ks with
  | [] => none
  | j :: rest =>
    if j.kid = kid then (if j.valid then some j else none) else findKey rest kid

/-- `_get_public_key` with the cache and world threaded.  `if not keys`
treats a missing and an empty key list alike. -/
def getPublicKeyW (ttl now : Int) (cache : JwksCache) (world : List FetchResult)
    (kid : String) : Option Jwk × JwksCache × List FetchResult :=
  match getJwksKeysW ttl now cache world with
  | (none, c, w) => (none, c, w)
  | (some [], c, w) => (none, c, w)
  | (some ks, c, w) => (findKey ks kid, c, w)

/-- The token_use claim as `_verify_token` reads it from the unverified
payload (a failed unverified decode yields the empty dict). -/
def tokenUse (tok : Token) : Option String :=
  if tok.payloadOk then tok.claims.token_use else none

/-- The key acquisition of `_verify_token`: look the kid up; on a miss, clear
the cached keys and look it up once more (the "Retry after clearing cache"
branch of both implementations). -/
def lookupKid (ttl now : Int) (cache : JwksCache) (world : List FetchResult)
    (k : String) : Option Jwk × JwksCache × List FetchResult :=
  match getPublicKeyW ttl now cache world k with
  | (some key, c1, w1) => (some key, c1, w1)
  | (none, c1, w1) => getPublicKeyW ttl now { c1 with keys := none } w1 k

/-- The `decode_options` audience configuration of `_verify_token`: audience
validation runs only for ID tokens with a truthy configured app client id;
access tokens (and every other token_use) skip it. -/
def audOptions (cfg : Config) (tok : Token) : Option String × Bool :=
  if tokenUse tok = some "id" then
    match cfg.appClientId with
    | some c => if c = "" then (none, false) else (some c, true)
    | none => (none, false)
  else (none, false)

/-- The `jwt.decode` call of `_verify_token` with its
MissingRequiredClaimError fallback: when the missing claim is `aud` and the
token_use is `access`, decode once more without aud verification. -/
def decodeWithFallback (cfg : Config) (now : Int) (tok : Token) (key : Jwk) :
    Except JwtError Claims :=
  match jwtDecode tok key ["RS256"] cfg.leeway cfg.issuer (audOptions cfg tok).1
      (audOptions cfg tok).2 now with
  | .error (.missingRequiredClaim c) =>
    if c = "aud" ∧ tokenUse tok = some "access" then
      jwtDecode tok key ["RS256"] cfg.leeway cfg.issuer (audOptions cfg tok).1
        false now
    else .error (.missingRequiredClaim c)
  | r => r

/-- The client_id comparison `_verify_token` applies to access tokens when an
app client id is configured: a truthy client_id claim must match it. -/
def clientIdCheck (cfg : Config) (tok : Token) (payload : Claims) : Bool :=
  if tokenUse tok = some "access" then
    match cfg.appClientId with
    | some c =>
      if c = "" then true
      else
        match payload.client_id with
        | some tc => ! (tc ≠ "" ∧ tc ≠ c : Bool)
        | none => true
    | none => true
  else true

/-- The decode-and-validate tail of the Flask `_verify_token`
(`middleware/auth.py`, lines 144-198), once a public key has been found:
decode with the fallback, check the access-token client_id, and finally
reject a truthy token_use other than id/access. -/
def verifyWithKey (cfg : Config) (now : Int) (tok : Token) (key : Jwk) :
    Except JwtError Claims :=
  match decodeWithFallback cfg now tok key with
  | .error e => .error e
  | .ok payload =>
    if clientIdCheck cfg tok payload then
      match tokenUse tok with
      | some u =>
        if u ≠ "" ∧ u ≠ "id" ∧ u ≠ "access" then .error (.invalidTokenUse u)
        else .ok payload
      | none => .ok payload
    else .error .invalidAudience

/-- `_verify_token` of `middleware/auth.py`: parse the header, extract the
kid, acquire the key (with the one cache-clearing retry), then decode and
validate. -/
def verifyToken (cfg : Config) (now : Int) (tok : Token) (cache : JwksCache)
    (world : List FetchResult) :
    Except JwtError Claims × JwksCache × List FetchResult :=
  if ¬ tok.headerOk then (.error .invalidHeader, cache, world)
  else
    match tok.kid with
    | none => (.error .missingKid, cache, world)
    | some k =>
      if k = "" then (.error .missingKid, cache, world)
      else
        match lookupKid cfg.cacheTtl now cache world k with
        | (none, c, w) => (.error .keyNotFound, c, w)
        | (some key, c, w) => (verifyWithKey cfg now tok key, c, w)

/-- A FastAPI HTTPException: status code and detail string. -/
structure HttpErr where
  status : Nat
  detail : String
  deriving DecidableEq

/-- The decode-and-validate tail of the FastAPI `_verify_token`
(`dependencies/auth.py`, lines 110-158).  The pipeline of the Flask version,
except that every rejection is an HTTPException and there is no final
token_use validation. -/
def verifyWithKeyFast (cfg : Config) (now : Int) (tok : Token) (key : Jwk) :
    Except HttpErr Claims :=
  match decodeWithFallback cfg now tok key with
  | .error .expiredSignature => .error ⟨403, "Token has expired"⟩
  | .error .invalidAudience => .error ⟨401, "Token audience mismatch"⟩
  | .error .invalidIssuer => .error ⟨401, "Token issuer mismatch"⟩
  | .error _ => .error ⟨401, "Invalid token"⟩
  | .ok payload =>
    if clientIdCheck cfg tok payload then .ok payload
    else .error ⟨401, "Token client_id mismatch"⟩

/-- `_verify_token` of `dependencies/auth.py`. -/
def verifyTokenFast (cfg : Config) (now : Int) (tok : Token) (cache : JwksCache)
    (world : List FetchResult) :
    Except HttpErr Claims × JwksCache × List FetchResult :=
  if ¬ tok.headerOk then (.error ⟨401, "Invalid token header"⟩, cache, world)
  else
    match tok.kid with
    | none => (.error ⟨401, "Token missing kid in header"⟩, cache, world)
    | some k =>
      if k = "" then (.error ⟨401, "Token missing kid in header"⟩, cache, world)
      else
        match lookupKid cfg.cacheTtl now cache world k with
        | (none, c, w) => (.error ⟨401, "Public key not found for kid"⟩, c, w)
        | (some key, c, w) => (verifyWithKeyFast cfg now tok key, c, w)

/-- `_extract_token`: the text after "Bearer " in the Authorization header
(a missing header reads as the empty string). -/
def extractToken (authHeader : Option String) : Option String :=
  match authHeader with
  | none => none
  | some h => if h.startsWith "Bearer " then some (h.drop 7) else none

/-- The fields of `g.user` (`_build_user_object`) the theorems mention,
together with the full payload it embeds as `cognito`. -/
structure UserObj where
  user_id : Option String
  token_use : Option String
  cognito : Claims
  deriving DecidableEq

/-- `_build_user_object` of `middleware/auth.py`, restricted to the modelled
fields. -/
def buildUserObject (p : Claims) : UserObj :=
  ⟨p.sub, p.token_use, p⟩

/-- Outcome of an `authenticate_jwt`-wrapped request: either an error
response (the wrapped handler never runs) or the handler runs with `g.user`
set. -/
inductive AuthOutcome where
  | response (status : Nat) (error : String)
  | handler (user : UserObj)
  deriving DecidableEq

/-- The function `authenticate_jwt` wraps around a route handler, for a
request carrying `authHeader`; `parse` interprets the extracted token string
as a `Token`. -/
def authenticateJwt (cfg : Config) (now : Int) (cache : JwksCache)
    (world : List FetchResult) (parse : String → Token)
    (authHeader : Option String) : AuthOutcome × JwksCache × List FetchResult :=
  match extractToken authHeader with
  | none => (.response 401 "unauthorized", cache, world)
  | some s =>
    if s = "" then (.response 401 "unauthorized", cache, world)
    else
      let tok := parse s
      if ¬ cfg.jwksUrlConfigured then
        if ¬ cfg.allowInsecure then (.response 500 "configuration_error", cache, world)
        else if tok.headerOk ∧ tok.payloadOk then
          (.handler (buildUserObject tok.claims), cache, world)
        else (.response 401 "invalid_token", cache, world)
      else
        match verifyToken cfg now tok cache world with
        | (.ok p, c, w) => (.handler (buildUserObject p), c, w)
        | (.error .expiredSignature, c, w) => (.response 403 "token_expired", c, w)
        | (.error .invalidAudience, c, w) => (.response 401 "invalid_audience", c, w)
        | (.error .invalidIssuer, c, w) => (.response 401 "invalid_issuer", c, w)
        | (.error _, c, w) => (.response 403 "invalid_token", c, w)

/-- `get_current_user` of `dependencies/auth.py`, given the credentials the
HTTPBearer dependency extracted; it returns the verified payload that feeds
`_build_user_object`. -/
def getCurrentUser (cfg : Config) (now : Int) (cache : JwksCache)
    (world : List FetchResult) (parse : String → Token) (credentials : String) :
    Except HttpErr Claims × JwksCache × List FetchResult :=
  if credentials = "" then
    (.error ⟨401, "No authentication token provided"⟩, cache, world)
  else
    let tok := parse credentials
    if ¬ cfg.jwksUrlConfigured ∧ cfg.allowInsecure then
      if tok.headerOk ∧ tok.payloadOk then (.ok tok.claims, cache, world)
      else (.error ⟨401, "invalid token"⟩, cache, world)
    else if ¬ cfg.jwksUrlConfigured ∧ ¬ cfg.allowInsecure then
      (.error ⟨500, "JWT verification not configured"⟩, cache, world)
    else
      verifyTokenFast cfg now tok cache world

/-- Whether an Except value is a success. -/
def exOk {ε α : Type} : Except ε α → Bool
  | .ok _ => true
  | .error _ => false

/-- Replace a token's aud claim (leaving everything else unchanged). -/
def setAud (tok : Token) (a : Option String) : Token :=
  { tok with claims := { tok.claims with aud := a } }

/-- All the keys delivered by a world of fetch outcomes. -/
def worldKeys (world : List FetchResult) : List Jwk :=
  world.foldr (fun f acc => f.getD [] ++ acc) []

/-- Every key a verification call starting from `cache` and `world` could
see: the cached list plus every fetchable list. -/
def keysOf (cache : JwksCache) (world : List FetchResult) : List Jwk :=
  cache.keys.getD [] ++ worldKeys world

/-- Association-list lookup for a MongoDB collection keyed by id. -/
def dbLookup {α : Type} : List (String × α) → String → Option α
  | [], _ => none
  | (k, v) :: rest, key => if k = key then some v else dbLookup rest key

/-- Update the document at a key, when present. -/
def dbUpdate {α : Type} : List (String × α) → String → (α → α) → List (String × α)
  | [], _, _ => []
  | (k, v) :: rest, key, f =>
    if k = key then (k, f v) :: rest else (k, v) :: dbUpdate rest key f

/-- Remove the document at a key. -/
def dbRemove {α : Type} : List (String × α) → String → List (String × α)
  | [], _ => []
  | (k, v) :: rest, key =>
    if k = key then dbRemove rest key else (k, v) :: dbRemove rest key

/-- Model of `bson.ObjectId.is_valid` / the `ObjectId` constructor raising on
a malformed id: a valid oid is a 24-character string (hex-ness elided). -/
def isValidOid (s : String) : Bool := s.length = 24

/-- A serie document (the fields `serie_service.py` reads and writes). -/
structure Serie where
  lessons : List String
  sns : Option String
  thumbnail : Option String
  subNum : Int
  updatedAt : Int
  deriving DecidableEq

/-- A user document (the fields `serie_service.py` reads and writes);
`serieSub` is the `serie_subcribe` list. -/
structure UserDoc where
  serieSub : List String
  email : Option String
  updatedAt : Int
  deriving DecidableEq

/-- The backend state the serie service touches: the two MongoDB collections,
the SNS topics and email subscriptions, and the media service's files. -/
structure Db where
  series : List (String × Serie)
  users : List (String × UserDoc)
  snsTopics : List String
  snsSubs : List (String × String)
  mediaFiles : List String
  deriving DecidableEq

/-- `MongoSerieRepository.delete`.  `Except.error` models the raises of the
Python (malformed ObjectId, missing serie).  A serie that still has lessons
returns `false` before any write. -/
def repoDelete (db : Db) (sid : String) (now : Int) : Except String (Bool × Db) :=
  if ¬ isValidOid sid then .error "InvalidId"
  else
    match dbLookup db.series sid with
    | none => .error "Serie khong ton tai."
    | some s =>
      if s.lessons ≠ [] then .ok (false, db)
      else
        let users1 := db.users.map fun kv =>
          if sid ∈ kv.2.serieSub then
            (kv.1, { kv.2 with serieSub := kv.2.serieSub.filter (· ≠ sid),
                               updatedAt := now })
          else kv
        let topics1 :=
          match s.sns with
          | some arn => db.snsTopics.filter (· ≠ arn)
          | none => db.snsTopics
        .ok (true, { db with users := users1, snsTopics := topics1,
                             series := dbRemove db.series sid })

/-- The dict `SerieService.delete_serie` returns. -/
structure DeleteResult where
  success : Bool
  warning : Option String
  deriving DecidableEq

/-- `SerieService.delete_serie`: read the serie (for its thumbnail), delete
through the repository, and on success delete the thumbnail from the media
service; a repository `false` yields the warning result. -/
def serviceDeleteSerie (db : Db) (sid : String) (now : Int) :
    Except String (DeleteResult × Db) :=
  let serie0 := if isValidOid sid then dbLookup db.series sid else none
  match repoDelete db sid now with
  | .error e => .error e
  | .ok (false, db1) =>
    .ok ({ success := false,
           warning := some "Khong the xoa serie khi van con bai hoc trong serie nay." }, db1)
  | .ok (true, db1) =>
    match serie0 with
    | some s =>
      match s.thumbnail with
      | some th =>
        if th ≠ "" then
          .ok ({ success := true, warning := none },
               { db1 with mediaFiles := db1.mediaFiles.filter (· ≠ th) })
        else .ok ({ success := true, warning := none }, db1)
      | none => .ok ({ success := true, warning := none }, db1)
    | none => .ok ({ success := true, warning := none }, db1)

/-- The dict `subscribe_user` returns (only the flag the service reads). -/
structure SubResult where
  alreadySubscribed : Bool
  deriving DecidableEq

/-- `MongoSerieRepository.subscribe_user`: the serie must exist with a truthy
SNS topic and the user must exist; an already-subscribed user is reported
without any write; otherwise the serie id is added to the user's list
($addToSet) and the serie's subscriber count incremented. -/
def repoSubscribeUser (db : Db) (sid uid : String) (now : Int) :
    Except String (SubResult × Db) :=
  if ¬ isValidOid sid then .error "InvalidId"
  else
    match dbLookup db.series sid with
    | none => .error "Serie not found"
    | some s =>
      match s.sns with
      | none => .error "Serie not found"
      | some arn =>
        if arn = "" then .error "Serie not found"
        else
          match dbLookup db.users uid with
          | none => .error "User not found"
          | some u =>
            if sid ∈ u.serieSub then .ok ({ alreadySubscribed := true }, db)
            else
              let users1 := dbUpdate db.users uid fun w =>
                { w with serieSub := if sid ∈ w.serieSub then w.serieSub
                                     else w.serieSub ++ [sid],
                         updatedAt := now }
              let series1 := dbUpdate db.series sid fun t =>
                { t with subNum := t.subNum + 1, updatedAt := now }
              .ok ({ alreadySubscribed := false },
                   { db with users := users1, series := series1 })

/-- The database state after one `subscribe_user` call (a raise leaves the
state unchanged). -/
def subscribeState (db : Db) (sid uid : String) (now : Int) : Db :=
  match repoSubscribeUser db sid uid now with
  | .ok (_, db1) => db1
  | .error _ => db

/-- One entry of a tracking document's `active_lessons` list
(`blueprints/tracking.py`). -/
structure LessonEntry where
  lesson_id : String
  serie_id : String
  lesson_title : Option String
  tab_id : String
  last_active : Option Int
  deriving DecidableEq

/-- A `current_lesson_tracking` document for one user. -/
structure TrackingDoc where
  active_lessons : List LessonEntry
  current_lesson : LessonEntry
  last_updated : Int
  deriving DecidableEq

/-- The strict comparison Python's `max(..., key=last_active)` applies, with
a missing `last_active` ranking below every timestamp (`datetime.min`). -/
def laGt : Option Int → Option Int → Bool
  | none, _ => false
  | some _, none => true
  | some a, some b => a > b

/-- Python `max(x :: xs, key=last_active)`: the first entry with the maximal
key. -/
def maxByLastActive (x : LessonEntry) (xs : List LessonEntry) : LessonEntry :=
  xs.foldl (fun best y => if laGt y.last_active best.last_active then y else best) x

/-- The keep-test of `_cleanup_stale_tabs`: an entry survives when its
`last_active` is missing or newer than the staleness threshold. -/
def freshKeep (thresh : Int) (l : LessonEntry) : Bool :=
  match l.last_active with
  | none => true
  | some t => decide (t > thresh)

/-- `_cleanup_stale_tabs`: drop entries whose `last_active` is older than the
threshold (entries without one are kept); if nothing was dropped the document
is left untouched, if everything was dropped it is deleted, otherwise the
fresh list is written with the most recent entry as current. -/
def cleanupStaleTabs (now staleMin : Int) (st : Option TrackingDoc) :
    Option TrackingDoc :=
  match st with
  | none => none
  | some d =>
    if (d.active_lessons.filter (freshKeep (now - staleMin * 60))).length =
        d.active_lessons.length then some d
    else
      match d.active_lessons.filter (freshKeep (now - staleMin * 60)) with
      | [] => none
      | x :: xs =>
        some { active_lessons := x :: xs, current_lesson := maxByLastActive x xs,
               last_updated := now }

/-- `enter_lesson`'s database write (after request-field validation): clean up
stale tabs, drop any previous entry for this tab, append the new entry and make
it current. -/
def enterLesson (now : Int) (lid sid : String) (title : Option String)
    (tab : String) (st : Option TrackingDoc) : Option TrackingDoc :=
  match cleanupStaleTabs now 30 st with
  | some d =>
    some { active_lessons :=
             d.active_lessons.filter (fun l => l.tab_id ≠ tab) ++
               [⟨lid, sid, title, tab, some now⟩],
           current_lesson := ⟨lid, sid, title, tab, some now⟩, last_updated := now }
  | none =>
    some { active_lessons := [⟨lid, sid, title, tab, some now⟩],
           current_lesson := ⟨lid, sid, title, tab, some now⟩, last_updated := now }

/-- `exit_lesson`'s database write: drop this tab's entry; delete the document
when no tab remains, otherwise make the most recent remaining entry current. -/
def exitLesson (now : Int) (tab : String) (st : Option TrackingDoc) :
    Option TrackingDoc :=
  match st with
  | none => none
  | some d =>
    match d.active_lessons.filter (fun l => l.tab_id ≠ tab) with
    | [] => none
    | x :: xs =>
      some { active_lessons := x :: xs, current_lesson := maxByLastActive x xs,
             last_updated := now }

/-- The in-place mutation of `update_lesson_focus`: refresh `last_active` on
the first entry with this tab id. -/
def setLastActive (now : Int) (tab : String) : List LessonEntry → List LessonEntry
  | [] => []
  | l :: ls =>
    if l.tab_id = tab then { l with last_active := some now } :: ls
    else l :: setLastActive now tab ls

/-- First entry with this tab id (the loop of `update_lesson_focus`). -/
def findTab (tab : String) : List LessonEntry → Option LessonEntry
  | [] => none
  | l :: ls => if l.tab_id = tab then some l else findTab tab ls

/-- `update_lesson_focus`'s database write: when the tab is found, refresh its
`last_active` and make it current; a miss (or a missing document) writes
nothing. -/
def updateLessonFocus (now : Int) (tab : String) (st : Option TrackingDoc) :
    Option TrackingDoc :=
  match st with
  | none => none
  | some d =>
    match findTab tab d.active_lessons with
    | none => some d
    | some l =>
      some { active_lessons := setLastActive now tab d.active_lessons,
             current_lesson := { l with last_active := some now },
             last_updated := now }

/-- The tab-tracking invariant of claim C10: a document exists only with a
non-empty `active_lessons` list, tab ids occur at most once, and
`current_lesson` is one of the active lessons. -/
def Inv : Option TrackingDoc → Prop
  | none => True
  | some d =>
    d.active_lessons ≠ [] ∧ (d.active_lessons.map (fun e => e.tab_id)).Nodup ∧
      d.current_lesson ∈ d.active_lessons

instance instDecidableInv : (st : Option TrackingDoc) → Decidable (Inv st)
  | none => isTrue trivial
  | some d => by unfold Inv; infer_instance

def serieW : Serie := ⟨["lesson1"], some "arn1", some "thumb1", 0, 0⟩

def sidW : String := "aaaaaaaaaaaaaaaaaaaaaaaa"

def dbW : Db :=
  ⟨[(sidW, serieW)], [("u1", ⟨[sidW], some "u1@example.com", 0⟩)], ["arn1"], [],
   ["thumb1"]⟩

def trackW : Option TrackingDoc :=
  some ⟨[⟨"l1", "s1", none, "tab1", some 10⟩, ⟨"l2", "s1", none, "tab2", some 20⟩],
        ⟨"l2", "s1", none, "tab2", some 20⟩, 20⟩

def jwk1 : Jwk := ⟨"k1", 5, true⟩

def cfg1 : Config := ⟨86400, 0, some "iss1", some "client1", true, false⟩

def claims1 : Claims := ⟨some "sub1", some "id", some "wrong", some "iss1", some 1000, none⟩

def tok1 : Token := ⟨true, some "k1", "RS256", true, claims1, some 5⟩

def cache1 : JwksCache := ⟨some [jwk1], some 0⟩

def claims2 : Claims := ⟨some "sub2", none, none, some "iss1", some 10, none⟩

def tok2 : Token := ⟨true, some "k1", "RS256", true, claims2, some 5⟩

def tok3 : Token := ⟨true, some "kX", "RS256", true, claims2, some 5⟩

def jwk2 : Jwk := ⟨"k2", 7, true⟩

def claimsB : Claims := ⟨some "subB", none, none, some "iss1", some 1000, none⟩

def tokB : Token := ⟨true, some "k2", "RS256", true, claimsB, some 7⟩

def claimsR : Claims := ⟨some "subR", some "refresh", none, some "iss1", some 1000, none⟩

def tokR : Token := ⟨true, some "k1", "RS256", true, claimsR, some 5⟩

theorem exOk_eq_true_iff {ε α : Type} (e : Except ε α) :
    exOk e = true ↔ ∃ a, e = .ok a := by
  cases e <;> simp [exOk]

theorem exOk_eq_false_iff {ε α : Type} (e : Except ε α) :
    exOk e = false ↔ ∀ a, e ≠ .ok a := by
  cases e <;> simp [exOk]

/-- C5: TTL cache behaviour of `_get_jwks_keys`: a cached entry younger than
JWKS_CACHE_TTL is returned with no fetch and no cache change; a stale or
missing entry triggers a fetch, and at the fetch a success overwrites the
cached keys and timestamp while a failure leaves the cache unchanged. -/
theorem c5_jwks_cache_ttl (ttl now : Int) (cache : JwksCache)
    (world : List FetchResult) :
    (∀ ks t, cache.keys = some ks → cache.fetched_at = some t → now - t < ttl →
      getJwksKeysW ttl now cache world = (some ks, cache, world)) ∧
    ((cache.keys = none ∨ cache.fetched_at = none ∨
        (∃ t, cache.fetched_at = some t ∧ ttl ≤ now - t)) →
      getJwksKeysW ttl now cache world = fetchStep now cache world) ∧
    (∀ ks rest, world = some ks :: rest →
      fetchStep now cache world = (some ks, ⟨some ks, some now⟩, rest)) ∧
    (∀ rest, world = none :: rest →
      fetchStep now cache world = (none, cache, rest)) := by
  obtain ⟨ck, cf⟩ := cache
  refine ⟨?_, ?_, ?_, ?_⟩
  · rintro ks t rfl rfl hlt
    simp [getJwksKeysW, hlt]
  · rintro (rfl | rfl | ⟨t, rfl, hle⟩)
    · cases cf <;> rfl
    · cases ck <;> rfl
    · cases ck with
      | none => rfl
      | some ks => simp [getJwksKeysW, show ¬ now - t < ttl by omega]
  · rintro ks rest rfl
    rfl
  · rintro rest rfl
    rfl

theorem c5_witness :
    ((5 : Int) - 0 < 100 ∧
      getJwksKeysW 100 5 ⟨some [⟨"a", 1, true⟩], some 0⟩ [none] =
        (some [⟨"a", 1, true⟩], ⟨some [⟨"a", 1, true⟩], some 0⟩, [none])) ∧
    getJwksKeysW 100 200 ⟨some [⟨"a", 1, true⟩], some 0⟩ [some [⟨"b", 2, true⟩]] =
      (some [⟨"b", 2, true⟩], ⟨some [⟨"b", 2, true⟩], some 200⟩, []) := by
  refine ⟨⟨by decide, ?_⟩, ?_⟩
  · exact (c5_jwks_cache_ttl 100 5 ⟨some [⟨"a", 1, true⟩], some 0⟩ [none]).1
      [⟨"a", 1, true⟩] 0 rfl rfl (by decide)
  · have h := c5_jwks_cache_ttl 100 200 ⟨some [⟨"a", 1, true⟩], some 0⟩
      [some [⟨"b", 2, true⟩]]
    rw [h.2.1 (Or.inr (Or.inr ⟨0, rfl, by decide⟩))]
    exact h.2.2.1 [⟨"b", 2, true⟩] [] rfl

/-- C8: deleting a serie that still has lessons is refused and side-effect
free: `delete_serie` returns success `false` with the warning and the whole
backend state (serie document, SNS topics, user subscriptions, media files)
is unchanged. -/
theorem c8_delete_blocked_with_lessons (db : Db) (sid : String) (now : Int)
    (s : Serie) (hoid : isValidOid sid = true)
    (hfind : dbLookup db.series sid = some s) (hless : s.lessons ≠ []) :
    serviceDeleteSerie db sid now =
      .ok ({ success := false,
             warning := some "Khong the xoa serie khi van con bai hoc trong serie nay." },
           db) := by
  unfold serviceDeleteSerie repoDelete
  simp [hoid, hfind, hless]


theorem c8_witness :
    (isValidOid sidW = true ∧ dbLookup dbW.series sidW = some serieW ∧
      serieW.lessons ≠ []) ∧
    serviceDeleteSerie dbW sidW 7 =
      .ok ({ success := false,
             warning := some "Khong the xoa serie khi van con bai hoc trong serie nay." },
           dbW) :=
  ⟨⟨by decide, by decide, by decide⟩,
   c8_delete_blocked_with_lessons dbW sidW 7 serieW (by decide) (by decide)
     (by decide)⟩

theorem dbLookup_dbUpdate_self {α : Type} (l : List (String × α)) (k : String)
    (f : α → α) : dbLookup (dbUpdate l k f) k = (dbLookup l k).map f := by
  induction l with
  | nil => rfl
  | cons kv rest ih =>
    obtain ⟨k', v⟩ := kv
    by_cases h : k' = k
    · simp [dbUpdate, dbLookup, h]
    · simp [dbUpdate, dbLookup, h, ih]

/-- C9: subscription is idempotent: a user already holding the serie id in
`serie_subcribe` gets `alreadySubscribed` and the state is untouched, and two
consecutive `subscribe_user` calls leave exactly the state of the first. -/
theorem c9_subscribe_idempotent (db : Db) (sid uid : String) (n1 n2 : Int) :
    (∀ s arn u, isValidOid sid = true → dbLookup db.series sid = some s →
      s.sns = some arn → arn ≠ "" → dbLookup db.users uid = some u →
      sid ∈ u.serieSub →
      repoSubscribeUser db sid uid n1 = .ok ({ alreadySubscribed := true }, db)) ∧
    subscribeState (subscribeState db sid uid n1) sid uid n2 =
      subscribeState db sid uid n1 := by
  constructor
  · intro s arn u hoid hs harn harne hu hmem
    unfold repoSubscribeUser
    simp [hoid, hs, harn, harne, hu, hmem]
  · unfold subscribeState
    cases hv : isValidOid sid with
    | false =>
      have h1 : repoSubscribeUser db sid uid n1 = .error "InvalidId" := by
        unfold repoSubscribeUser; simp [hv]
      have h2 : repoSubscribeUser db sid uid n2 = .error "InvalidId" := by
        unfold repoSubscribeUser; simp [hv]
      simp [h1, h2]
    | true =>
      cases hs : dbLookup db.series sid with
      | none =>
        have h1 : repoSubscribeUser db sid uid n1 = .error "Serie not found" := by
          unfold repoSubscribeUser; simp [hv, hs]
        have h2 : repoSubscribeUser db sid uid n2 = .error "Serie not found" := by
          unfold repoSubscribeUser; simp [hv, hs]
        simp [h1, h2]
      | some s =>
        cases hsns : s.sns with
        | none =>
          have h1 : repoSubscribeUser db sid uid n1 = .error "Serie not found" := by
            unfold repoSubscribeUser; simp [hv, hs, hsns]
          have h2 : repoSubscribeUser db sid uid n2 = .error "Serie not found" := by
            unfold repoSubscribeUser; simp [hv, hs, hsns]
          simp [h1, h2]
        | some arn =>
          by_cases harn : arn = ""
          · have h1 : repoSubscribeUser db sid uid n1 = .error "Serie not found" := by
              unfold repoSubscribeUser; simp [hv, hs, hsns, harn]
            have h2 : repoSubscribeUser db sid uid n2 = .error "Serie not found" := by
              unfold repoSubscribeUser; simp [hv, hs, hsns, harn]
            simp [h1, h2]
          · cases hu : dbLookup db.users uid with
            | none =>
              have h1 : repoSubscribeUser db sid uid n1 = .error "User not found" := by
                unfold repoSubscribeUser; simp [hv, hs, hsns, harn, hu]
              have h2 : repoSubscribeUser db sid uid n2 = .error "User not found" := by
                unfold repoSubscribeUser; simp [hv, hs, hsns, harn, hu]
              simp [h1, h2]
            | some u =>
              by_cases hmem : sid ∈ u.serieSub
              · have h1 : repoSubscribeUser db sid uid n1 =
                    .ok ({ alreadySubscribed := true }, db) := by
                  unfold repoSubscribeUser; simp [hv, hs, hsns, harn, hu, hmem]
                have h2 : repoSubscribeUser db sid uid n2 =
                    .ok ({ alreadySubscribed := true }, db) := by
                  unfold repoSubscribeUser; simp [hv, hs, hsns, harn, hu, hmem]
                simp [h1, h2]
              · have h1 : repoSubscribeUser db sid uid n1 =
                    .ok ({ alreadySubscribed := false },
                      { db with
                        users := dbUpdate db.users uid fun w =>
                          { w with serieSub := if sid ∈ w.serieSub then w.serieSub
                                               else w.serieSub ++ [sid],
                                   updatedAt := n1 },
                        series := dbUpdate db.series sid fun t =>
                          { t with subNum := t.subNum + 1, updatedAt := n1 } }) := by
                  unfold repoSubscribeUser; simp [hv, hs, hsns, harn, hu, hmem]
                rw [h1]
                have hs2 : dbLookup (dbUpdate db.series sid fun t =>
                    { t with subNum := t.subNum + 1, updatedAt := n1 }) sid =
                    some { s with subNum := s.subNum + 1, updatedAt := n1 } := by
                  rw [dbLookup_dbUpdate_self, hs]; rfl
                have hu2 : dbLookup (dbUpdate db.users uid fun w =>
                    { w with serieSub := if sid ∈ w.serieSub then w.serieSub
                                         else w.serieSub ++ [sid],
                             updatedAt := n1 }) uid =
                    some { u with serieSub := u.serieSub ++ [sid],
                                  updatedAt := n1 } := by
                  rw [dbLookup_dbUpdate_self, hu]
                  simp [hmem]
                have h2 : repoSubscribeUser
                    { db with
                      users := dbUpdate db.users uid fun w =>
                        { w with serieSub := if sid ∈ w.serieSub then w.serieSub
                                             else w.serieSub ++ [sid],
                                 updatedAt := n1 },
                      series := dbUpdate db.series sid fun t =>
                        { t with subNum := t.subNum + 1, updatedAt := n1 } }
                    sid uid n2 =
                    .ok ({ alreadySubscribed := true },
                      { db with
                        users := dbUpdate db.users uid fun w =>
                          { w with serieSub := if sid ∈ w.serieSub then w.serieSub
                                               else w.serieSub ++ [sid],
                                   updatedAt := n1 },
                        series := dbUpdate db.series sid fun t =>
                          { t with subNum := t.subNum + 1, updatedAt := n1 } }) := by
                  unfold repoSubscribeUser
                  simp [hv, hs2, hsns, harn, hu2]
                simp [h2]

theorem c9_witness :
    (isValidOid sidW = true ∧ dbLookup dbW.series sidW = some serieW ∧
      serieW.sns = some "arn1" ∧
      dbLookup dbW.users "u1" = some ⟨[sidW], some "u1@example.com", 0⟩ ∧
      sidW ∈ ([sidW] : List String)) ∧
    repoSubscribeUser dbW sidW "u1" 3 = .ok ({ alreadySubscribed := true }, dbW) :=
  ⟨⟨by decide, by decide, by decide, by decide, by decide⟩,
   (c9_subscribe_idempotent dbW sidW "u1" 3 3).1 serieW "arn1"
     ⟨[sidW], some "u1@example.com", 0⟩ (by decide) (by decide) (by decide)
     (by decide) (by decide) (by decide)⟩

theorem inv_some_iff (d : TrackingDoc) :
    Inv (some d) ↔ d.active_lessons ≠ [] ∧
      (d.active_lessons.map (fun e => e.tab_id)).Nodup ∧
      d.current_lesson ∈ d.active_lessons := Iff.rfl

theorem maxByLastActive_mem (x : LessonEntry) (xs : List LessonEntry) :
    maxByLastActive x xs ∈ x :: xs := by
  induction xs generalizing x with
  | nil => simp [maxByLastActive]
  | cons y ys ih =>
    have h : maxByLastActive x (y :: ys) =
        maxByLastActive (if laGt y.last_active x.last_active then y else x) ys := rfl
    rw [h]
    rcases List.mem_cons.mp (ih (if laGt y.last_active x.last_active then y else x))
      with h2 | h2
    · rw [h2]
      split
      · exact List.mem_cons_of_mem _ (List.mem_cons_self _ _)
      · exact List.mem_cons_self _ _
    · exact List.mem_cons_of_mem _ (List.mem_cons_of_mem _ h2)

theorem filter_map_tab_nodup (l : List LessonEntry) (p : LessonEntry → Bool)
    (h : (l.map (fun e => e.tab_id)).Nodup) :
    ((l.filter p).map (fun e => e.tab_id)).Nodup :=
  List.Nodup.sublist ((l.filter_sublist).map _) h

theorem setLastActive_map_tab (now : Int) (tab : String) (l : List LessonEntry) :
    (setLastActive now tab l).map (fun e => e.tab_id) =
      l.map (fun e => e.tab_id) := by
  induction l with
  | nil => rfl
  | cons l0 ls ih =>
    by_cases h0 : l0.tab_id = tab
    · simp [setLastActive, h0]
    · simp [setLastActive, h0, ih]

theorem findTab_mem_setLastActive (now : Int) (tab : String)
    (l : List LessonEntry) (e : LessonEntry) (h : findTab tab l = some e) :
    ({ e with last_active := some now }) ∈ setLastActive now tab l := by
  induction l with
  | nil => simp [findTab] at h
  | cons l0 ls ih =>
    by_cases h0 : l0.tab_id = tab
    · rw [findTab] at h
      rw [if_pos h0] at h
      obtain rfl : l0 = e := by injection h
      simp [setLastActive, h0]
    · rw [findTab] at h
      rw [if_neg h0] at h
      simp only [setLastActive, if_neg h0]
      exact List.mem_cons_of_mem _ (ih h)

theorem inv_cleanup (now staleMin : Int) (st : Option TrackingDoc) (h : Inv st) :
    Inv (cleanupStaleTabs now staleMin st) := by
  cases st with
  | none => exact trivial
  | some d =>
    obtain ⟨hne, hnd, hcur⟩ := (inv_some_iff d).mp h
    simp only [cleanupStaleTabs]
    by_cases hlen : (d.active_lessons.filter (freshKeep (now - staleMin * 60))).length =
        d.active_lessons.length
    · rw [if_pos hlen]
      exact h
    · rw [if_neg hlen]
      rcases hf : d.active_lessons.filter (freshKeep (now - staleMin * 60)) with _ | ⟨x, xs⟩
      · exact trivial
      · refine (inv_some_iff _).mpr ⟨by simp, ?_, by simpa using maxByLastActive_mem x xs⟩
        have h2 := filter_map_tab_nodup d.active_lessons
          (freshKeep (now - staleMin * 60)) hnd
        rw [hf] at h2
        simpa using h2

theorem inv_enter (now : Int) (lid sid : String) (title : Option String)
    (tab : String) (st : Option TrackingDoc) (h : Inv st) :
    Inv (enterLesson now lid sid title tab st) := by
  have h1 : Inv (cleanupStaleTabs now 30 st) := inv_cleanup now 30 st h
  simp only [enterLesson]
  rcases hc : cleanupStaleTabs now 30 st with _ | d
  · exact (inv_some_iff _).mpr ⟨by simp, by simp, by simp⟩
  · rw [hc] at h1
    obtain ⟨hne, hnd, hcur⟩ := (inv_some_iff d).mp h1
    refine (inv_some_iff _).mpr ⟨by simp, ?_, by simp⟩
    show ((d.active_lessons.filter (fun l : LessonEntry => l.tab_id ≠ tab) ++
        [(⟨lid, sid, title, tab, some now⟩ : LessonEntry)]).map
          (fun e : LessonEntry => e.tab_id)).Nodup
    rw [List.map_append]
    refine (List.nodup_append).mpr
      ⟨filter_map_tab_nodup _ _ hnd, by simp, ?_⟩
    intro a ha hb
    simp only [List.map_cons, List.map_nil, List.mem_singleton] at hb
    subst hb
    obtain ⟨e, he, hetab⟩ := List.mem_map.mp ha
    have h3 := List.of_mem_filter he
    simp at h3
    exact h3 hetab

theorem inv_exit (now : Int) (tab : String) (st : Option TrackingDoc)
    (h : Inv st) : Inv (exitLesson now tab st) := by
  cases st with
  | none => exact trivial
  | some d =>
    obtain ⟨hne, hnd, hcur⟩ := (inv_some_iff d).mp h
    simp only [exitLesson]
    generalize hf : d.active_lessons.filter
      (fun l : LessonEntry => decide (l.tab_id ≠ tab)) = res
    cases res with
    | nil => exact trivial
    | cons x xs =>
      refine (inv_some_iff _).mpr ⟨by simp, ?_, by simpa using maxByLastActive_mem x xs⟩
      have h2 := filter_map_tab_nodup d.active_lessons
        (fun l : LessonEntry => decide (l.tab_id ≠ tab)) hnd
      rw [hf] at h2
      simpa using h2

theorem inv_focus (now : Int) (tab : String) (st : Option TrackingDoc)
    (h : Inv st) : Inv (updateLessonFocus now tab st) := by
  cases st with
  | none => exact trivial
  | some d =>
    obtain ⟨hne, hnd, hcur⟩ := (inv_some_iff d).mp h
    simp only [updateLessonFocus]
    rcases hf : findTab tab d.active_lessons with _ | e
    · exact h
    · have hm := setLastActive_map_tab now tab d.active_lessons
      refine (inv_some_iff _).mpr ⟨?_, ?_, ?_⟩
      · show setLastActive now tab d.active_lessons ≠ []
        intro h0
        apply hne
        have h2 : d.active_lessons.map (fun e => e.tab_id) = [] := by
          rw [← hm, h0]
          rfl
        exact List.map_eq_nil_iff.mp h2
      · show ((setLastActive now tab d.active_lessons).map (fun e => e.tab_id)).Nodup
        rw [hm]
        exact hnd
      · exact findTab_mem_setLastActive now tab d.active_lessons e hf

/-- C10: the tab-tracking invariant is preserved by every successful tracking
write: the document survives only with a non-empty `active_lessons` list
(removing the last tab deletes it), tab ids occur at most once, and
`current_lesson` is always one of the active lessons. -/
theorem c10_tracking_invariant (now staleMin : Int) (lid sid : String)
    (title : Option String) (tab : String) (st : Option TrackingDoc)
    (h : Inv st) :
    Inv (enterLesson now lid sid title tab st) ∧ Inv (exitLesson now tab st) ∧
    Inv (updateLessonFocus now tab st) ∧ Inv (cleanupStaleTabs now staleMin st) :=
  ⟨inv_enter now lid sid title tab st h, inv_exit now tab st h,
   inv_focus now tab st h, inv_cleanup now staleMin st h⟩


theorem c10_witness :
    Inv trackW ∧
    (Inv (enterLesson 2000 "l3" "s1" none "tab1" trackW) ∧
     Inv (exitLesson 2000 "tab1" trackW) ∧
     Inv (updateLessonFocus 2000 "tab1" trackW) ∧
     Inv (cleanupStaleTabs 2000 30 trackW)) :=
  ⟨by decide, c10_tracking_invariant 2000 30 "l3" "s1" none "tab1" trackW (by decide)⟩

@[simp] theorem setAud_headerOk (tok : Token) (a : Option String) :
    (setAud tok a).headerOk = tok.headerOk := rfl

@[simp] theorem setAud_kid (tok : Token) (a : Option String) :
    (setAud tok a).kid = tok.kid := rfl

@[simp] theorem setAud_alg (tok : Token) (a : Option String) :
    (setAud tok a).alg = tok.alg := rfl

@[simp] theorem setAud_payloadOk (tok : Token) (a : Option String) :
    (setAud tok a).payloadOk = tok.payloadOk := rfl

@[simp] theorem setAud_signedBy (tok : Token) (a : Option String) :
    (setAud tok a).signedBy = tok.signedBy := rfl

@[simp] theorem setAud_claims_aud (tok : Token) (a : Option String) :
    (setAud tok a).claims.aud = a := rfl

@[simp] theorem setAud_claims_exp (tok : Token) (a : Option String) :
    (setAud tok a).claims.exp = tok.claims.exp := rfl

@[simp] theorem setAud_claims_iss (tok : Token) (a : Option String) :
    (setAud tok a).claims.iss = tok.claims.iss := rfl

@[simp] theorem setAud_claims_client_id (tok : Token) (a : Option String) :
    (setAud tok a).claims.client_id = tok.claims.client_id := rfl

@[simp] theorem tokenUse_setAud (tok : Token) (a : Option String) :
    tokenUse (setAud tok a) = tokenUse tok := rfl

theorem jwtDecode_ok_iff (tok : Token) (key : Jwk) (algs : List String)
    (leeway : Int) (issuer audience : Option String) (verifyAud : Bool)
    (now : Int) (p : Claims) :
    jwtDecode tok key algs leeway issuer audience verifyAud now = .ok p ↔
      (p = tok.claims ∧ tok.headerOk = true ∧ tok.alg ∈ algs ∧
       tok.signedBy = some key.material ∧ tok.payloadOk = true ∧
       validateExp tok.claims leeway now = .ok () ∧
       validateIss tok.claims issuer = .ok () ∧
       validateAud tok.claims audience verifyAud = .ok ()) := by
  cases htok : tok.headerOk with
  | false => simp [jwtDecode, htok]
  | true =>
    by_cases halg : tok.alg ∈ algs
    · by_cases hsig : tok.signedBy = some key.material
      case neg => simp [jwtDecode, htok, halg, hsig]
      case pos => cases hpl : tok.payloadOk with
        | false => simp [jwtDecode, htok, halg, hsig, hpl]
        | true =>
          cases hE : validateExp tok.claims leeway now with
          | error e => simp [jwtDecode, htok, halg, hsig, hpl, hE]
          | ok u =>
            cases hI : validateIss tok.claims issuer with
            | error e => simp [jwtDecode, htok, halg, hsig, hpl, hE, hI]
            | ok v =>
              cases hA : validateAud tok.claims audience verifyAud with
              | error e => simp [jwtDecode, htok, halg, hsig, hpl, hE, hI, hA]
              | ok w =>
                simp [jwtDecode, htok, halg, hsig, hpl, hE, hI, hA, eq_comm]
    · simp [jwtDecode, htok, halg]

theorem validateExp_ok_iff (c : Claims) (leeway now : Int) :
    validateExp c leeway now = .ok () ↔ ∀ e, c.exp = some e → now - leeway < e := by
  cases he : c.exp with
  | none => simp [validateExp, he]
  | some e =>
    simp only [validateExp, he]
    split_ifs with h
    · constructor
      · intro h2
        exact h2.elim
      · intro h2
        have h3 := h2 e rfl
        omega
    · constructor
      · intro _ e2 he2
        obtain rfl : e = e2 := by injection he2
        omega
      · intro _
        rfl

theorem validateIss_ok_iff (c : Claims) (issuer : Option String) :
    validateIss c issuer = .ok () ↔ ∀ i, issuer = some i → c.iss = some i := by
  cases issuer with
  | none => simp [validateIss]
  | some i =>
    cases hi : c.iss with
    | none => simp [validateIss, hi]
    | some ci =>
      by_cases h : ci = i
      · simp [validateIss, hi, h]
      · simp [validateIss, hi, h]

theorem validateAud_ok_some_iff (c : Claims) (ex : String) (hex : ex ≠ "") :
    validateAud c (some ex) true = .ok () ↔ c.aud = some ex := by
  cases ha : c.aud with
  | none => simp [validateAud, ha]
  | some a =>
    by_cases h0 : a = ""
    · subst h0
      simp [validateAud, ha]
      exact fun h2 => hex h2.symm
    · by_cases h1 : a = ex
      · subst h1
        simp [validateAud, ha, h0]
      · simp [validateAud, ha, h0, h1]

theorem validateAud_false (c : Claims) (audience : Option String) :
    validateAud c audience false = .ok () := by
  simp [validateAud]

theorem decodeWithFallback_eq_decode (cfg : Config) (now : Int) (tok : Token)
    (key : Jwk) :
    decodeWithFallback cfg now tok key =
      jwtDecode tok key ["RS256"] cfg.leeway cfg.issuer (audOptions cfg tok).1
        (audOptions cfg tok).2 now := by
  unfold decodeWithFallback
  cases hd : jwtDecode tok key ["RS256"] cfg.leeway cfg.issuer
      (audOptions cfg tok).1 (audOptions cfg tok).2 now with
  | ok q => rfl
  | error e =>
    cases e
    case missingRequiredClaim c =>
      dsimp only
      by_cases hcond : c = "aud" ∧ tokenUse tok = some "access"
      · rw [if_pos hcond]
        have ha : audOptions cfg tok = (none, false) := by
          simp [audOptions, hcond.2]
        rw [ha] at hd
        rw [ha]
        simpa using hd
      · rw [if_neg hcond]
    all_goals rfl

theorem verifyWithKey_ok_iff (cfg : Config) (now : Int) (tok : Token)
    (key : Jwk) (p : Claims) :
    verifyWithKey cfg now tok key = .ok p ↔
      (decodeWithFallback cfg now tok key = .ok p ∧
       clientIdCheck cfg tok p = true ∧
       (∀ u, tokenUse tok = some u → u = "" ∨ u = "id" ∨ u = "access")) := by
  unfold verifyWithKey
  cases hd : decodeWithFallback cfg now tok key with
  | error e => simp [hd]
  | ok q =>
    constructor
    · intro h
      dsimp only at h
      by_cases hcc : clientIdCheck cfg tok q = true
      · rw [if_pos hcc] at h
        rcases htu : tokenUse tok with _ | u
        · rw [htu] at h
          obtain rfl : q = p := by injection h
          exact ⟨rfl, hcc, fun u hu => by simp [htu] at hu⟩
        · rw [htu] at h
          dsimp only at h
          by_cases hu : u ≠ "" ∧ u ≠ "id" ∧ u ≠ "access"
          · rw [if_pos hu] at h
            exact Except.noConfusion h
          · rw [if_neg hu] at h
            obtain rfl : q = p := by injection h
            refine ⟨rfl, hcc, ?_⟩
            intro u2 hu2
            obtain rfl : u = u2 := by injection hu2
            by_cases h1 : u = ""
            · exact Or.inl h1
            by_cases h2 : u = "id"
            · exact Or.inr (Or.inl h2)
            by_cases h3 : u = "access"
            · exact Or.inr (Or.inr h3)
            exact absurd ⟨h1, h2, h3⟩ hu
      · rw [if_neg hcc] at h
        exact Except.noConfusion h
    · rintro ⟨h1, h2, h3⟩
      obtain rfl : q = p := by injection h1
      dsimp only
      rw [if_pos h2]
      rcases htu : tokenUse tok with _ | u
      · rfl
      · have h4 := h3 u htu
        have hcond : ¬(u ≠ "" ∧ u ≠ "id" ∧ u ≠ "access") := by
          rcases h4 with h | h | h <;> simp [h]
        dsimp only
        rw [if_neg hcond]

theorem verifyWithKeyFast_ok_iff (cfg : Config) (now : Int) (tok : Token)
    (key : Jwk) (p : Claims) :
    verifyWithKeyFast cfg now tok key = .ok p ↔
      (decodeWithFallback cfg now tok key = .ok p ∧
       clientIdCheck cfg tok p = true) := by
  unfold verifyWithKeyFast
  cases hd : decodeWithFallback cfg now tok key with
  | error e => cases e <;> simp [hd]
  | ok q =>
    constructor
    · intro h
      dsimp only at h
      by_cases hcc : clientIdCheck cfg tok q = true
      · rw [if_pos hcc] at h
        obtain rfl : q = p := by injection h
        exact ⟨rfl, hcc⟩
      · rw [if_neg hcc] at h
        exact Except.noConfusion h
    · rintro ⟨h1, h2⟩
      obtain rfl : q = p := by injection h1
      dsimp only
      rw [if_pos h2]

theorem findKey_some (ks : List Jwk) (kid : String) (j : Jwk)
    (h : findKey ks kid = some j) : j ∈ ks ∧ j.kid = kid ∧ j.valid = true := by
  induction ks with
  | nil => simp [findKey] at h
  | cons k0 rest ih =>
    rw [findKey] at h
    by_cases h0 : k0.kid = kid
    · rw [if_pos h0] at h
      by_cases h1 : k0.valid = true
      · rw [if_pos h1] at h
        obtain rfl : k0 = j := by injection h
        exact ⟨List.mem_cons_self _ _, h0, h1⟩
      · rw [if_neg h1] at h
        exact Option.noConfusion h
    · rw [if_neg h0] at h
      obtain ⟨hm, hk, hv⟩ := ih h
      exact ⟨List.mem_cons_of_mem _ hm, hk, hv⟩

theorem findKey_none_of (ks : List Jwk) (kid : String)
    (h : ∀ j ∈ ks, j.kid ≠ kid) : findKey ks kid = none := by
  induction ks with
  | nil => rfl
  | cons k0 rest ih =>
    rw [findKey]
    rw [if_neg (h k0 (List.mem_cons_self _ _))]
    exact ih fun j hj => h j (List.mem_cons_of_mem _ hj)

theorem worldKeys_cons (f : FetchResult) (w : List FetchResult) :
    worldKeys (f :: w) = f.getD [] ++ worldKeys w := rfl

theorem getJwksKeysW_spec (ttl now : Int) (cache : JwksCache)
    (world : List FetchResult) :
    (∀ ks, (getJwksKeysW ttl now cache world).1 = some ks →
        ∀ j ∈ ks, j ∈ keysOf cache world) ∧
    ((getJwksKeysW ttl now cache world).2.2 = world ∨
        ∃ f, world = f :: (getJwksKeysW ttl now cache world).2.2) := by
  obtain ⟨ck, cf⟩ := cache
  have hfetch : (∀ ks, (fetchStep now ⟨ck, cf⟩ world).1 = some ks →
        ∀ j ∈ ks, j ∈ keysOf ⟨ck, cf⟩ world) ∧
      ((fetchStep now ⟨ck, cf⟩ world).2.2 = world ∨
        ∃ f, world = f :: (fetchStep now ⟨ck, cf⟩ world).2.2) := by
    rcases world with _ | ⟨f, rest⟩
    · exact ⟨fun ks h => by simp [fetchStep] at h, Or.inl rfl⟩
    · rcases f with _ | ks0
      · exact ⟨fun ks h => by simp [fetchStep] at h, Or.inr ⟨none, rfl⟩⟩
      · refine ⟨?_, Or.inr ⟨some ks0, rfl⟩⟩
        intro ks h j hj
        obtain rfl : ks0 = ks := by simpa [fetchStep] using h
        simp only [keysOf, worldKeys_cons, Option.getD_some, List.mem_append]
        exact Or.inr (Or.inl hj)
  unfold getJwksKeysW
  rcases ck with _ | ks
  · exact hfetch
  · rcases cf with _ | t
    · exact hfetch
    · dsimp only
      by_cases hlt : now - t < ttl
      · rw [if_pos hlt]
        refine ⟨?_, Or.inl rfl⟩
        intro ks2 h j hj
        obtain rfl : ks = ks2 := by simpa using h
        simp only [keysOf, List.mem_append, Option.getD_some]
        exact Or.inl hj
      · rw [if_neg hlt]
        exact hfetch

theorem getPublicKeyW_spec (ttl now : Int) (cache : JwksCache)
    (world : List FetchResult) (kid : String) :
    (∀ j, (getPublicKeyW ttl now cache world kid).1 = some j →
        j ∈ keysOf cache world ∧ j.kid = kid ∧ j.valid = true) ∧
    ((getPublicKeyW ttl now cache world kid).2.2 = world ∨
        ∃ f, world = f :: (getPublicKeyW ttl now cache world kid).2.2) := by
  have hg := getJwksKeysW_spec ttl now cache world
  unfold getPublicKeyW
  rcases hk : getJwksKeysW ttl now cache world with ⟨r, c, w⟩
  rw [hk] at hg
  rcases r with _ | ks
  · exact ⟨fun j h => by simp at h, hg.2⟩
  · rcases ks with _ | ⟨k0, krest⟩
    · exact ⟨fun j h => by simp at h, hg.2⟩
    · refine ⟨?_, hg.2⟩
      intro j h
      dsimp only at h
      obtain ⟨hm, hkid, hv⟩ := findKey_some (k0 :: krest) kid j h
      exact ⟨hg.1 (k0 :: krest) rfl j hm, hkid, hv⟩

theorem worldKeys_sub_of_step (world w1 : List FetchResult)
    (h : w1 = world ∨ ∃ f, world = f :: w1) :
    ∀ j, j ∈ worldKeys w1 → j ∈ worldKeys world := by
  rcases h with rfl | ⟨f, rfl⟩
  · exact fun j hj => hj
  · intro j hj
    rw [worldKeys_cons]
    exact List.mem_append_right _ hj

theorem lookupKid_some_spec (ttl now : Int) (cache : JwksCache)
    (world : List FetchResult) (k : String) (j : Jwk) (c : JwksCache)
    (w : List FetchResult) (h : lookupKid ttl now cache world k = (some j, c, w)) :
    j ∈ keysOf cache world ∧ j.kid = k ∧ j.valid = true := by
  unfold lookupKid at h
  rcases h1 : getPublicKeyW ttl now cache world k with ⟨r1, c1, w1⟩
  rw [h1] at h
  have hs1 := getPublicKeyW_spec ttl now cache world k
  rw [h1] at hs1
  rcases r1 with _ | j1
  · dsimp only at h
    have hs2 := getPublicKeyW_spec ttl now { c1 with keys := none } w1 k
    rw [h] at hs2
    obtain ⟨hm, hkid, hv⟩ := hs2.1 j rfl
    refine ⟨?_, hkid, hv⟩
    have hm2 : j ∈ worldKeys w1 := by
      simpa [keysOf] using hm
    have hm3 := worldKeys_sub_of_step world w1 hs1.2 j hm2
    simp only [keysOf, List.mem_append]
    exact Or.inr hm3
  · dsimp only at h
    have hj : some j1 = some j := congrArg Prod.fst h
    exact hs1.1 j hj

theorem getPublicKeyW_none_of_no_kid (ttl now : Int) (cache : JwksCache)
    (world : List FetchResult) (k : String)
    (h : ∀ j ∈ keysOf cache world, j.kid ≠ k) :
    (getPublicKeyW ttl now cache world k).1 = none := by
  have hg := getJwksKeysW_spec ttl now cache world
  unfold getPublicKeyW
  rcases hk : getJwksKeysW ttl now cache world with ⟨r, c, w⟩
  rw [hk] at hg
  rcases r with _ | ks
  · rfl
  · rcases ks with _ | ⟨k0, krest⟩
    · rfl
    · dsimp only
      exact findKey_none_of (k0 :: krest) k fun j hj => h j (hg.1 (k0 :: krest) rfl j hj)

theorem lookupKid_none_of_no_kid (ttl now : Int) (cache : JwksCache)
    (world : List FetchResult) (k : String)
    (h : ∀ j ∈ keysOf cache world, j.kid ≠ k) :
    (lookupKid ttl now cache world k).1 = none := by
  unfold lookupKid
  rcases h1 : getPublicKeyW ttl now cache world k with ⟨r1, c1, w1⟩
  have hs1 := getPublicKeyW_spec ttl now cache world k
  rw [h1] at hs1
  rcases r1 with _ | j1
  · dsimp only
    apply getPublicKeyW_none_of_no_kid
    intro j hj
    apply h
    have hj2 : j ∈ worldKeys w1 := by
      simpa [keysOf] using hj
    have hj3 := worldKeys_sub_of_step world w1 hs1.2 j hj2
    simp only [keysOf, List.mem_append]
    exact Or.inr hj3
  · exfalso
    obtain ⟨hm, hkid, _⟩ := hs1.1 j1 rfl
    exact h j1 hm hkid

theorem getPublicKeyW_len (ttl now : Int) (cache : JwksCache)
    (world : List FetchResult) (kid : String) :
    world.length ≤ (getPublicKeyW ttl now cache world kid).2.2.length + 1 := by
  rcases (getPublicKeyW_spec ttl now cache world kid).2 with h | ⟨f, h⟩
  · rw [h]
    omega
  · have h2 := congrArg List.length h
    simp at h2
    omega

theorem lookupKid_len (ttl now : Int) (cache : JwksCache)
    (world : List FetchResult) (k : String) :
    world.length ≤ (lookupKid ttl now cache world k).2.2.length + 2 := by
  unfold lookupKid
  rcases h1 : getPublicKeyW ttl now cache world k with ⟨r1, c1, w1⟩
  have l1 := getPublicKeyW_len ttl now cache world k
  rw [h1] at l1
  dsimp only at l1
  rcases r1 with _ | j
  · dsimp only
    have l2 := getPublicKeyW_len ttl now { c1 with keys := none } w1 k
    omega
  · dsimp only
    omega

theorem verifyToken_world_len (cfg : Config) (now : Int) (tok : Token)
    (cache : JwksCache) (world : List FetchResult) :
    world.length ≤ (verifyToken cfg now tok cache world).2.2.length + 2 := by
  cases hh : tok.headerOk with
  | false =>
    simp [verifyToken, hh]
  | true =>
    rcases hk : tok.kid with _ | k
    · simp [verifyToken, hh, hk]
    · by_cases hne : k = ""
      · simp [verifyToken, hh, hk, hne]
      · have hl := lookupKid_len cfg.cacheTtl now cache world k
        rcases h2 : lookupKid cfg.cacheTtl now cache world k with ⟨r, c, w⟩
        rw [h2] at hl
        dsimp only at hl
        rcases r with _ | j
        · simp [verifyToken, hh, hk, hne, h2]
          omega
        · simp [verifyToken, hh, hk, hne, h2]
          omega

theorem verifyToken_eq_of_lookup (cfg : Config) (now : Int) (tok : Token)
    (cache : JwksCache) (world : List FetchResult) (k : String) (key : Jwk)
    (c : JwksCache) (w : List FetchResult) (hh : tok.headerOk = true)
    (hk : tok.kid = some k) (hne : k ≠ "")
    (hl : lookupKid cfg.cacheTtl now cache world k = (some key, c, w)) :
    verifyToken cfg now tok cache world = (verifyWithKey cfg now tok key, c, w) := by
  simp [verifyToken, hh, hk, hne, hl]

theorem verifyToken_keyNotFound (cfg : Config) (now : Int) (tok : Token)
    (cache : JwksCache) (world : List FetchResult) (k : String)
    (hh : tok.headerOk = true) (hk : tok.kid = some k) (hne : k ≠ "")
    (hnone : (lookupKid cfg.cacheTtl now cache world k).1 = none) :
    (verifyToken cfg now tok cache world).1 = .error .keyNotFound := by
  rcases hl : lookupKid cfg.cacheTtl now cache world k with ⟨r, c, w⟩
  rw [hl] at hnone
  dsimp only at hnone
  subst hnone
  simp [verifyToken, hh, hk, hne, hl]

theorem verifyToken_ok_inv (cfg : Config) (now : Int) (tok : Token)
    (cache : JwksCache) (world : List FetchResult) (p : Claims)
    (h : (verifyToken cfg now tok cache world).1 = .ok p) :
    ∃ k key c w, tok.headerOk = true ∧ tok.kid = some k ∧ k ≠ "" ∧
      lookupKid cfg.cacheTtl now cache world k = (some key, c, w) ∧
      verifyWithKey cfg now tok key = .ok p := by
  cases hh : tok.headerOk with
  | false => simp [verifyToken, hh] at h
  | true =>
    rcases hk : tok.kid with _ | k
    · simp [verifyToken, hh, hk] at h
    · by_cases hne : k = ""
      · simp [verifyToken, hh, hk, hne] at h
      · rcases hl : lookupKid cfg.cacheTtl now cache world k with ⟨r, c, w⟩
        rcases r with _ | key
        · simp [verifyToken, hh, hk, hne, hl] at h
        · simp only [verifyToken, hh, hk, hne, hl] at h
          refine ⟨k, key, c, w, rfl, rfl, hne, hl, ?_⟩
          simpa using h

theorem audOptions_id_some (cfg : Config) (tok : Token) (c : String)
    (htu : tokenUse tok = some "id") (happ : cfg.appClientId = some c)
    (hc : c ≠ "") : audOptions cfg tok = (some c, true) := by
  simp [audOptions, htu, happ, hc]

theorem audOptions_not_id (cfg : Config) (tok : Token)
    (htu : tokenUse tok ≠ some "id") : audOptions cfg tok = (none, false) := by
  simp [audOptions, htu]

theorem verifyToken_ok_conditions (cfg : Config) (now : Int) (tok : Token)
    (cache : JwksCache) (world : List FetchResult) (p : Claims)
    (h : (verifyToken cfg now tok cache world).1 = .ok p) :
    p = tok.claims ∧ tok.headerOk = true ∧ tok.payloadOk = true ∧
    tok.alg = "RS256" ∧
    validateExp tok.claims cfg.leeway now = .ok () ∧
    validateIss tok.claims cfg.issuer = .ok () ∧
    validateAud tok.claims (audOptions cfg tok).1 (audOptions cfg tok).2 = .ok () ∧
    clientIdCheck cfg tok tok.claims = true ∧
    (∀ u, tokenUse tok = some u → u = "" ∨ u = "id" ∨ u = "access") ∧
    (∃ k key c w, tok.kid = some k ∧ k ≠ "" ∧
      lookupKid cfg.cacheTtl now cache world k = (some key, c, w) ∧
      tok.signedBy = some key.material ∧ key.kid = k ∧ key.valid = true ∧
      key ∈ keysOf cache world) := by
  obtain ⟨k, key, c, w, hh, hk, hne, hl, hwk⟩ :=
    verifyToken_ok_inv cfg now tok cache world p h
  obtain ⟨hd, hcc, hfl⟩ := (verifyWithKey_ok_iff cfg now tok key p).mp hwk
  rw [decodeWithFallback_eq_decode] at hd
  obtain ⟨hp, hh2, halg, hsig, hpl, hexp, hiss, haud⟩ :=
    (jwtDecode_ok_iff tok key ["RS256"] cfg.leeway cfg.issuer
      (audOptions cfg tok).1 (audOptions cfg tok).2 now p).mp hd
  obtain ⟨hkm, hkk, hkv⟩ := lookupKid_some_spec cfg.cacheTtl now cache world k key c w hl
  subst hp
  refine ⟨rfl, hh2, hpl, ?_, hexp, hiss, haud, hcc, hfl,
    k, key, c, w, hk, hne, hl, hsig, hkk, hkv, hkm⟩
  simpa using halg

theorem clientIdCheck_setAud (cfg : Config) (tok : Token) (x : Option String) :
    clientIdCheck cfg (setAud tok x) (setAud tok x).claims =
      clientIdCheck cfg tok tok.claims := rfl

theorem verifyWithKey_setAud_exOk (cfg : Config) (now : Int) (tok : Token)
    (key : Jwk) (a b : Option String) (htu : tokenUse tok = some "access") :
    exOk (verifyWithKey cfg now (setAud tok a) key) =
      exOk (verifyWithKey cfg now (setAud tok b) key) := by
  have hne : ∀ x : Option String, tokenUse (setAud tok x) ≠ some "id" := by
    intro x
    rw [tokenUse_setAud, htu]
    simp
  have hmain : ∀ x : Option String,
      (∃ p, verifyWithKey cfg now (setAud tok x) key = .ok p) ↔
      (tok.headerOk = true ∧ tok.alg ∈ (["RS256"] : List String) ∧
       tok.signedBy = some key.material ∧ tok.payloadOk = true ∧
       validateExp tok.claims cfg.leeway now = .ok () ∧
       validateIss tok.claims cfg.issuer = .ok () ∧
       clientIdCheck cfg tok tok.claims = true ∧
       (∀ u, tokenUse tok = some u → u = "" ∨ u = "id" ∨ u = "access")) := by
    intro x
    constructor
    · rintro ⟨p, hp⟩
      obtain ⟨hd, hcc, hfl⟩ := (verifyWithKey_ok_iff cfg now (setAud tok x) key p).mp hp
      rw [decodeWithFallback_eq_decode,
        audOptions_not_id cfg (setAud tok x) (hne x)] at hd
      obtain ⟨hp2, hh, halg, hsig, hpl, hexp, hiss, _⟩ :=
        (jwtDecode_ok_iff (setAud tok x) key ["RS256"] cfg.leeway cfg.issuer
          none false now p).mp hd
      refine ⟨hh, halg, hsig, hpl, hexp, hiss, ?_, ?_⟩
      · rw [← clientIdCheck_setAud cfg tok x]
        subst hp2
        exact hcc
      · intro u hu
        exact hfl u (by rw [tokenUse_setAud]; exact hu)
    · rintro ⟨hh, halg, hsig, hpl, hexp, hiss, hcc, hfl⟩
      refine ⟨(setAud tok x).claims, ?_⟩
      rw [verifyWithKey_ok_iff]
      refine ⟨?_, ?_, ?_⟩
      · rw [decodeWithFallback_eq_decode,
          audOptions_not_id cfg (setAud tok x) (hne x), jwtDecode_ok_iff]
        exact ⟨rfl, hh, halg, hsig, hpl, hexp, hiss, validateAud_false _ _⟩
      · rw [clientIdCheck_setAud]
        exact hcc
      · intro u hu
        exact hfl u (by rw [tokenUse_setAud] at hu; exact hu)
  have ha := hmain a
  have hb := hmain b
  cases hA : exOk (verifyWithKey cfg now (setAud tok a) key) with
  | true =>
    have hBtrue : exOk (verifyWithKey cfg now (setAud tok b) key) = true :=
      (exOk_eq_true_iff _).mpr (hb.mpr (ha.mp ((exOk_eq_true_iff _).mp hA)))
    rw [hBtrue]
  | false =>
    cases hB : exOk (verifyWithKey cfg now (setAud tok b) key) with
    | false => rfl
    | true =>
      exfalso
      obtain ⟨p, hp⟩ := ha.mpr (hb.mp ((exOk_eq_true_iff _).mp hB))
      exact absurd hp ((exOk_eq_false_iff _).mp hA p)

theorem verifyToken_id_aud_reject (cfg : Config) (now : Int) (tok : Token)
    (cache : JwksCache) (world : List FetchResult) (c : String)
    (htu : tokenUse tok = some "id") (happ : cfg.appClientId = some c)
    (hc : c ≠ "") (haud : tok.claims.aud ≠ some c) :
    exOk (verifyToken cfg now tok cache world).1 = false := by
  rw [exOk_eq_false_iff]
  intro p hp
  obtain ⟨_, _, _, _, _, _, hvaud, _, _, _⟩ :=
    verifyToken_ok_conditions cfg now tok cache world p hp
  rw [audOptions_id_some cfg tok c htu happ hc] at hvaud
  exact haud ((validateAud_ok_some_iff tok.claims c hc).mp hvaud)

theorem verifyToken_setAud_exOk (cfg : Config) (now : Int) (tok : Token)
    (cache : JwksCache) (world : List FetchResult) (a b : Option String)
    (htu : tokenUse tok = some "access") :
    exOk (verifyToken cfg now (setAud tok a) cache world).1 =
      exOk (verifyToken cfg now (setAud tok b) cache world).1 := by
  cases hh : tok.headerOk with
  | false => simp [verifyToken, hh, exOk]
  | true =>
    rcases hk : tok.kid with _ | k
    · simp [verifyToken, hh, hk, exOk]
    · by_cases hne : k = ""
      · simp [verifyToken, hh, hk, hne, exOk]
      · rcases hl : lookupKid cfg.cacheTtl now cache world k with ⟨r, c1, w1⟩
        rcases r with _ | key
        · simp [verifyToken, hh, hk, hne, hl, exOk]
        · have e1 := verifyToken_eq_of_lookup cfg now (setAud tok a) cache world
            k key c1 w1 (by simpa using hh) (by simpa using hk) hne hl
          have e2 := verifyToken_eq_of_lookup cfg now (setAud tok b) cache world
            k key c1 w1 (by simpa using hh) (by simpa using hk) hne hl
          rw [e1, e2]
          exact verifyWithKey_setAud_exOk cfg now tok key a b htu

/-- C1: token-use discrimination in `_verify_token`: for an ID token with a
configured app client id, the aud claim is validated against it and a
mismatch is rejected; for an access token the aud claim plays no role in
acceptance, and instead a present (truthy) client_id claim in the verified
payload must equal the configured app client id, a mismatch raising the
invalid-audience error. -/
theorem c1_token_use_discrimination (cfg : Config) (now : Int) (tok : Token)
    (cache : JwksCache) (world : List FetchResult) (a b : Option String)
    (c tc : String) (p : Claims) :
    (tokenUse tok = some "id" → cfg.appClientId = some c → c ≠ "" →
      tok.claims.aud ≠ some c →
      exOk (verifyToken cfg now tok cache world).1 = false) ∧
    (tokenUse tok = some "access" →
      exOk (verifyToken cfg now (setAud tok a) cache world).1 =
        exOk (verifyToken cfg now (setAud tok b) cache world).1) ∧
    ((verifyToken cfg now tok cache world).1 = .ok p →
      tokenUse tok = some "access" → cfg.appClientId = some c → c ≠ "" →
      p.client_id = some tc → tc ≠ "" → tc = c) ∧
    (tokenUse tok = some "access" → cfg.appClientId = some c → c ≠ "" →
      tok.claims.client_id = some tc → tc ≠ "" → tc ≠ c →
      (verifyToken { cfg with appClientId := none } now tok cache world).1 = .ok p →
      (verifyToken cfg now tok cache world).1 = .error .invalidAudience) := by
  refine ⟨?_, ?_, ?_, ?_⟩
  · intro htu happ hc haud
    exact verifyToken_id_aud_reject cfg now tok cache world c htu happ hc haud
  · intro htu
    exact verifyToken_setAud_exOk cfg now tok cache world a b htu
  · intro hok htu happ hc hcid htc
    obtain ⟨hp, _, _, _, _, _, _, hcc, _, _⟩ :=
      verifyToken_ok_conditions cfg now tok cache world p hok
    subst hp
    simp [clientIdCheck, htu, happ, hc, hcid] at hcc
    rcases hcc with h | h
    · exact absurd h htc
    · exact h
  · intro htu happ hc hcid htc hneq hok
    have htu_ne : tokenUse tok ≠ some "id" := by rw [htu]; simp
    obtain ⟨k, key, c1, w1, hh, hk, hne, hl, hwk⟩ :=
      verifyToken_ok_inv { cfg with appClientId := none } now tok cache world p hok
    have hl2 : lookupKid cfg.cacheTtl now cache world k = (some key, c1, w1) := hl
    obtain ⟨hd, _, _⟩ :=
      (verifyWithKey_ok_iff { cfg with appClientId := none } now tok key p).mp hwk
    rw [decodeWithFallback_eq_decode,
      audOptions_not_id { cfg with appClientId := none } tok htu_ne] at hd
    have hd2 : jwtDecode tok key ["RS256"] cfg.leeway cfg.issuer none false now =
        .ok p := hd
    have hp : p = tok.claims :=
      ((jwtDecode_ok_iff tok key ["RS256"] cfg.leeway cfg.issuer none false
        now p).mp hd2).1
    have hdc : decodeWithFallback cfg now tok key = .ok p := by
      rw [decodeWithFallback_eq_decode, audOptions_not_id cfg tok htu_ne]
      exact hd2
    have hccF : clientIdCheck cfg tok p = false := by
      rw [hp]
      simp [clientIdCheck, htu, happ, hc, hcid, htc, hneq]
    have hvk : verifyWithKey cfg now tok key = .error .invalidAudience := by
      unfold verifyWithKey
      rw [hdc]
      dsimp only
      rw [hccF]
      simp
    rw [verifyToken_eq_of_lookup cfg now tok cache world k key c1 w1 hh hk hne hl2]
    exact hvk

theorem c1_witness :
    (tokenUse tok1 = some "id" ∧ cfg1.appClientId = some "client1" ∧
      ("client1" : String) ≠ "" ∧ tok1.claims.aud ≠ some "client1") ∧
    exOk (verifyToken cfg1 50 tok1 cache1 []).1 = false :=
  ⟨⟨rfl, rfl, by decide, by decide⟩,
   (c1_token_use_discrimination cfg1 50 tok1 cache1 [] none none "client1" "x"
     claims1).1 rfl rfl (by decide) (by decide)⟩

theorem authJwt_handler_cases (cfg : Config) (now : Int) (cache : JwksCache)
    (world : List FetchResult) (parse : String → Token) (header : Option String)
    (u : UserObj)
    (h : (authenticateJwt cfg now cache world parse header).1 = .handler u) :
    ∃ s, extractToken header = some s ∧ s ≠ "" ∧
      ((cfg.jwksUrlConfigured = false ∧ cfg.allowInsecure = true ∧
        (parse s).headerOk = true ∧ (parse s).payloadOk = true ∧
        u = buildUserObject (parse s).claims) ∨
       (cfg.jwksUrlConfigured = true ∧
        ∃ p, (verifyToken cfg now (parse s) cache world).1 = .ok p ∧
          u = buildUserObject p)) := by
  rcases hs : extractToken header with _ | s
  · simp [authenticateJwt, hs] at h
  · by_cases hse : s = ""
    · simp [authenticateJwt, hs, hse] at h
    · refine ⟨s, rfl, hse, ?_⟩
      cases hjw : cfg.jwksUrlConfigured with
      | false =>
        cases hai : cfg.allowInsecure with
        | false => simp [authenticateJwt, hs, hse, hjw, hai] at h
        | true =>
          by_cases hb : ((parse s).headerOk = true ∧ (parse s).payloadOk = true)
          · left
            refine ⟨rfl, rfl, hb.1, hb.2, ?_⟩
            simp [authenticateJwt, hs, hse, hjw, hai, hb.1, hb.2] at h
            exact h.symm
          · exfalso
            simp [authenticateJwt, hs, hse, hjw, hai] at h
            rcases h2 : (parse s).headerOk with _ | _ <;>
              rcases h3 : (parse s).payloadOk with _ | _ <;>
                simp [h2, h3] at h hb
      | true =>
        right
        refine ⟨rfl, ?_⟩
        rcases hv : verifyToken cfg now (parse s) cache world with ⟨r, cv, wv⟩
        rcases r with e | pp
        · exfalso
          cases e <;> simp [authenticateJwt, hs, hse, hjw, hv] at h
        · refine ⟨pp, rfl, ?_⟩
          simp [authenticateJwt, hs, hse, hjw, hv] at h
          exact h.symm

/-- C2: `_verify_token` returns a payload only for tokens passing every
configured validation: a token expired beyond JWT_LEEWAY, a token whose iss
differs from the configured issuer, and an ID token whose aud differs from
the configured app client id are all rejected, and a rejected token never
reaches the wrapped route handler. -/
theorem c2_exp_iss_aud_validation (cfg : Config) (now : Int) (tok : Token)
    (cache : JwksCache) (world : List FetchResult) (e : Int) (i c : String)
    (header : Option String) (s : String) (parse : String → Token) :
    (tok.claims.exp = some e → e ≤ now - cfg.leeway →
      exOk (verifyToken cfg now tok cache world).1 = false) ∧
    (cfg.issuer = some i → tok.claims.iss ≠ some i →
      exOk (verifyToken cfg now tok cache world).1 = false) ∧
    (tokenUse tok = some "id" → cfg.appClientId = some c → c ≠ "" →
      tok.claims.aud ≠ some c →
      exOk (verifyToken cfg now tok cache world).1 = false) ∧
    (cfg.jwksUrlConfigured = true → extractToken header = some s → s ≠ "" →
      exOk (verifyToken cfg now (parse s) cache world).1 = false →
      ∀ u, (authenticateJwt cfg now cache world parse header).1 ≠ .handler u) := by
  refine ⟨?_, ?_, ?_, ?_⟩
  · intro hexp hle
    rw [exOk_eq_false_iff]
    intro p hp
    obtain ⟨_, _, _, _, hvexp, _, _, _, _, _⟩ :=
      verifyToken_ok_conditions cfg now tok cache world p hp
    have := (validateExp_ok_iff tok.claims cfg.leeway now).mp hvexp e hexp
    omega
  · intro hiss hne
    rw [exOk_eq_false_iff]
    intro p hp
    obtain ⟨_, _, _, _, _, hviss, _, _, _, _⟩ :=
      verifyToken_ok_conditions cfg now tok cache world p hp
    exact hne ((validateIss_ok_iff tok.claims cfg.issuer).mp hviss i hiss)
  · intro htu happ hc haud
    exact verifyToken_id_aud_reject cfg now tok cache world c htu happ hc haud
  · intro hjw hs hse hver u hhand
    obtain ⟨s2, hs2, hse2, hcase⟩ :=
      authJwt_handler_cases cfg now cache world parse header u hhand
    obtain rfl : s = s2 := by rw [hs] at hs2; injection hs2
    rcases hcase with ⟨hf, _⟩ | ⟨_, p, hok, _⟩
    · rw [hjw] at hf
      exact Bool.noConfusion hf
    · exact absurd hok ((exOk_eq_false_iff _).mp hver p)

theorem c2_witness :
    (tok2.claims.exp = some 10 ∧ (10 : Int) ≤ 100 - cfg1.leeway) ∧
    exOk (verifyToken cfg1 100 tok2 cache1 []).1 = false :=
  ⟨⟨rfl, by decide⟩,
   (c2_exp_iss_aud_validation cfg1 100 tok2 cache1 [] 10 "i" "c" none "s"
     (fun _ => tok2)).1 rfl (by decide)⟩

/-- C3: every token `_verify_token` accepts carries a kid naming a valid key
among the keys the call could see, its signature is verified with that key's
material and only the RS256 algorithm; a token without a kid, or whose kid
matches no available JWKS key, is rejected with an invalid-token error
(missing-kid resp. key-not-found). -/
theorem c3_signature_kid_validation (cfg : Config) (now : Int) (tok : Token)
    (cache : JwksCache) (world : List FetchResult) (p : Claims) (k : String) :
    ((verifyToken cfg now tok cache world).1 = .ok p →
      ∃ k2 key, tok.kid = some k2 ∧ k2 ≠ "" ∧ key.kid = k2 ∧ key.valid = true ∧
        key ∈ keysOf cache world ∧ tok.alg = "RS256" ∧
        tok.signedBy = some key.material) ∧
    (tok.headerOk = true → (tok.kid = none ∨ tok.kid = some "") →
      (verifyToken cfg now tok cache world).1 = .error .missingKid) ∧
    (tok.headerOk = true → tok.kid = some k → k ≠ "" →
      (∀ j ∈ keysOf cache world, j.kid ≠ k) →
      (verifyToken cfg now tok cache world).1 = .error .keyNotFound) := by
  refine ⟨?_, ?_, ?_⟩
  · intro h
    obtain ⟨_, _, _, halg, _, _, _, _, _, k2, key, c, w, hk, hne, _, hsig, hkk, hkv, hkm⟩ :=
      verifyToken_ok_conditions cfg now tok cache world p h
    exact ⟨k2, key, hk, hne, hkk, hkv, hkm, halg, hsig⟩
  · rintro hh (hk | hk) <;> simp [verifyToken, hh, hk]
  · intro hh hk hne hnokid
    exact verifyToken_keyNotFound cfg now tok cache world k hh hk hne
      (lookupKid_none_of_no_kid cfg.cacheTtl now cache world k hnokid)

theorem c3_witness :
    (tok3.headerOk = true ∧ tok3.kid = some "kX" ∧ ("kX" : String) ≠ "" ∧
      (∀ j ∈ keysOf cache1 [], j.kid ≠ "kX")) ∧
    (verifyToken cfg1 5 tok3 cache1 []).1 = .error .keyNotFound :=
  ⟨⟨rfl, rfl, by decide, by decide⟩,
   (c3_signature_kid_validation cfg1 5 tok3 cache1 [] claims2 "kX").2.2 rfl rfl
     (by decide) (by decide)⟩

/-- C4: requests to protected routes are authenticated: the `authenticate_jwt`
wrapper runs its handler only after a non-empty Bearer token was extracted and
verified (or the explicit insecure development mode applied), a request
without a Bearer token is answered 401 unauthorized with the handler never
invoked, and the FastAPI `get_current_user` rejects an empty credential
with 401. -/
theorem c4_protected_routes_authenticated (cfg : Config) (now : Int)
    (cache : JwksCache) (world : List FetchResult) (parse : String → Token)
    (header : Option String) (u : UserObj) :
    ((extractToken header = none ∨ extractToken header = some "") →
      (authenticateJwt cfg now cache world parse header).1 =
        .response 401 "unauthorized") ∧
    ((authenticateJwt cfg now cache world parse header).1 = .handler u →
      ∃ s, extractToken header = some s ∧ s ≠ "" ∧
        ((cfg.jwksUrlConfigured = false ∧ cfg.allowInsecure = true ∧
          (parse s).headerOk = true ∧ (parse s).payloadOk = true ∧
          u = buildUserObject (parse s).claims) ∨
         (cfg.jwksUrlConfigured = true ∧
          ∃ p, (verifyToken cfg now (parse s) cache world).1 = .ok p ∧
            u = buildUserObject p))) ∧
    (getCurrentUser cfg now cache world parse "").1 =
      .error ⟨401, "No authentication token provided"⟩ := by
  refine ⟨?_, ?_, ?_⟩
  · rintro (h | h) <;> simp [authenticateJwt, h]
  · exact authJwt_handler_cases cfg now cache world parse header u
  · simp [getCurrentUser]

theorem c4_witness :
    (extractToken none = none ∨ extractToken none = some "") ∧
    (authenticateJwt cfg1 5 cache1 [] (fun _ => tok1) none).1 =
      .response 401 "unauthorized" :=
  ⟨Or.inl rfl,
   (c4_protected_routes_authenticated cfg1 5 cache1 [] (fun _ => tok1) none
     (buildUserObject claims1)).1 (Or.inl rfl)⟩

/-- C6 counterexample: with a fresh cache whose keys do not contain the
token's kid, `_verify_token` does not simply fail: it discards the cached
keys, fetches the JWKS a second source of keys within the same call (the
world's one fetch is consumed), and succeeds. -/
theorem c6_counterexample :
    (∀ j ∈ cache1.keys.getD [], j.kid ≠ "k2") ∧
    verifyToken cfg1 5 tokB cache1 [some [jwk2]] =
      (.ok claimsB, ⟨some [jwk2], some 5⟩, []) ∧
    (⟨some [jwk2], some 5⟩ : JwksCache) ≠ cache1 := by
  refine ⟨by decide, rfl, by decide⟩

/-- C6 amended: `_verify_token` performs at most two JWKS fetches per call;
when the kid is not found it clears the cached keys and looks the kid up once
more, failing with key-not-found only if the second lookup also misses. -/
theorem c6_retry_once_amended (cfg : Config) (now : Int) (tok : Token)
    (cache : JwksCache) (world : List FetchResult) (k : String)
    (c1 : JwksCache) (w1 : List FetchResult) (c3 : JwksCache)
    (w2 : List FetchResult) :
    world.length ≤ (verifyToken cfg now tok cache world).2.2.length + 2 ∧
    (tok.headerOk = true → tok.kid = some k → k ≠ "" →
      getPublicKeyW cfg.cacheTtl now cache world k = (none, c1, w1) →
      getPublicKeyW cfg.cacheTtl now { c1 with keys := none } w1 k = (none, c3, w2) →
      verifyToken cfg now tok cache world = (.error .keyNotFound, c3, w2)) := by
  refine ⟨verifyToken_world_len cfg now tok cache world, ?_⟩
  intro hh hk hne h1 h2
  have hl : lookupKid cfg.cacheTtl now cache world k = (none, c3, w2) := by
    unfold lookupKid
    rw [h1]
    dsimp only
    exact h2
  simp [verifyToken, hh, hk, hne, hl]

theorem c6_witness :
    (tok3.headerOk = true ∧ tok3.kid = some "kX" ∧ ("kX" : String) ≠ "" ∧
      getPublicKeyW cfg1.cacheTtl 5 cache1 [] "kX" = (none, cache1, []) ∧
      getPublicKeyW cfg1.cacheTtl 5 { cache1 with keys := none } [] "kX" =
        (none, ⟨none, some 0⟩, [])) ∧
    verifyToken cfg1 5 tok3 cache1 [] =
      (.error .keyNotFound, ⟨none, some 0⟩, []) :=
  ⟨⟨rfl, rfl, by decide, by decide, by decide⟩,
   (c6_retry_once_amended cfg1 5 tok3 cache1 [] "kX" cache1 [] ⟨none, some 0⟩
     []).2 rfl rfl (by decide) (by decide) (by decide)⟩

/-- C7 counterexample: the two `_verify_token` implementations do not accept
the same set of tokens: a token with token_use "refresh" (otherwise valid) is
rejected by the Flask version and accepted by the FastAPI version. -/
theorem c7_counterexample :
    (verifyToken cfg1 5 tokR cache1 []).1 = .error (.invalidTokenUse "refresh") ∧
    (verifyTokenFast cfg1 5 tokR cache1 []).1 = .ok claimsR :=
  ⟨rfl, rfl⟩

/-- C7 amended: under identical configuration and cache state the two
`_verify_token` implementations accept the same tokens with the same decoded
payload, and leave the same cache and fetch state, for every token whose
token_use claim is absent, empty, "id" or "access"; they differ (only) on the
remaining token_use values, which the Flask version alone rejects. -/
theorem c7_equivalence_amended (cfg : Config) (now : Int) (tok : Token)
    (cache : JwksCache) (world : List FetchResult) (p : Claims)
    (hallow : tokenUse tok = none ∨ tokenUse tok = some "" ∨
      tokenUse tok = some "id" ∨ tokenUse tok = some "access") :
    ((verifyToken cfg now tok cache world).1 = .ok p ↔
      (verifyTokenFast cfg now tok cache world).1 = .ok p) ∧
    (verifyToken cfg now tok cache world).2 =
      (verifyTokenFast cfg now tok cache world).2 := by
  have hford : ∀ u, tokenUse tok = some u → u = "" ∨ u = "id" ∨ u = "access" := by
    intro u hu
    rcases hallow with h | h | h | h
    · rw [h] at hu
      exact Option.noConfusion hu
    · rw [h] at hu
      obtain rfl : "" = u := by injection hu
      exact Or.inl rfl
    · rw [h] at hu
      obtain rfl : "id" = u := by injection hu
      exact Or.inr (Or.inl rfl)
    · rw [h] at hu
      obtain rfl : "access" = u := by injection hu
      exact Or.inr (Or.inr rfl)
  cases hh : tok.headerOk with
  | false =>
    exact ⟨by simp [verifyToken, verifyTokenFast, hh],
      by simp [verifyToken, verifyTokenFast, hh]⟩
  | true =>
    rcases hk : tok.kid with _ | k
    · exact ⟨by simp [verifyToken, verifyTokenFast, hh, hk],
        by simp [verifyToken, verifyTokenFast, hh, hk]⟩
    · by_cases hne : k = ""
      · exact ⟨by simp [verifyToken, verifyTokenFast, hh, hk, hne],
          by simp [verifyToken, verifyTokenFast, hh, hk, hne]⟩
      · rcases hl : lookupKid cfg.cacheTtl now cache world k with ⟨r, c1, w1⟩
        rcases r with _ | key
        · exact ⟨by simp [verifyToken, verifyTokenFast, hh, hk, hne, hl],
            by simp [verifyToken, verifyTokenFast, hh, hk, hne, hl]⟩
        · have eFl : verifyToken cfg now tok cache world =
              (verifyWithKey cfg now tok key, c1, w1) :=
            verifyToken_eq_of_lookup cfg now tok cache world k key c1 w1 hh hk hne hl
          have eFa : verifyTokenFast cfg now tok cache world =
              (verifyWithKeyFast cfg now tok key, c1, w1) := by
            simp [verifyTokenFast, hh, hk, hne, hl]
          rw [eFl, eFa]
          refine ⟨?_, rfl⟩
          dsimp only
          rw [verifyWithKey_ok_iff, verifyWithKeyFast_ok_iff]
          constructor
          · rintro ⟨h1, h2, _⟩
            exact ⟨h1, h2⟩
          · rintro ⟨h1, h2⟩
            exact ⟨h1, h2, hford⟩

theorem c7_witness :
    (tokenUse tok1 = none ∨ tokenUse tok1 = some "" ∨ tokenUse tok1 = some "id" ∨
      tokenUse tok1 = some "access") ∧
    (((verifyToken cfg1 5 tok1 cache1 []).1 = .ok claims1 ↔
       (verifyTokenFast cfg1 5 tok1 cache1 []).1 = .ok claims1) ∧
     (verifyToken cfg1 5 tok1 cache1 []).2 = (verifyTokenFast cfg1 5 tok1 cache1 []).2) :=
  ⟨Or.inr (Or.inr (Or.inl rfl)),
   c7_equivalence_amended cfg1 5 tok1 cache1 [] claims1
     (Or.inr (Or.inr (Or.inl rfl)))⟩
